import Mathlib

/-!
Verification development for the WhisperTux global hotkey subsystem and its
surrounding application code (`main.py`, `src/config_manager.py`).

The hotkey subsystem itself (`src/global_shortcuts.py`) is not present in
the source tree; its components (KeyNameCodec, ChordRecognizer, BindingTable,
ShortcutService) are modelled from the specification, as marked on each
definition. The ConfigManager and the settings-dialog validation logic are
embedded directly from the Python source.
-/

namespace WhisperTux

/-! ## KeyNameCodec: chord strings and chord specifications -/

/-- Modelled from the spec: the set of modifier keys of a chord
(`{Ctrl, Alt, Shift, Super}`), represented as one flag per modifier. -/
structure Mods where
  ctrl : Bool
  alt : Bool
  shift : Bool
  sup : Bool
deriving DecidableEq, Fintype

/-- Modelled from the spec: a normalized chord specification — a modifier
set plus a base key, where the base key is one of the function keys F1–F20
(`base = k` encodes `F(k+1)`). -/
structure ChordSpec where
  mods : Mods
  base : Fin 20
deriving DecidableEq, Fintype

/-- Modelled from the spec: the error kind raised on a malformed binding
string (called `InvalidChordSyntax` in the spec's error taxonomy). -/
inductive ParseError where
  | invalidChord
deriving DecidableEq

/-- ASCII lower-casing of one character, the model of Python `str.lower()`
on the ASCII key names the codec recognizes. -/
def lowerChar (c : Char) : Char :=
  if 'A' ≤ c ∧ c ≤ 'Z' then Char.ofNat (c.toNat + 32) else c

/-- Split a character list at every `'+'`, the model of splitting a chord
string on its `+` separators (empty input yields one empty token, like
Python `"".split("+")`). -/
def splitPlus : List Char → List (List Char)
  | [] => [[]]
  | c :: rest =>
    if c = '+' then [] :: splitPlus rest
    else
      match splitPlus rest with
      | [] => [[c]]
      | t :: ts => (c :: t) :: ts

/-- Modelled from the spec: case-insensitive recognition of the four
modifier tokens `Ctrl`, `Alt`, `Shift`, `Super`. -/
def modOfToken (t : List Char) : Option (Mods → Mods) :=
  let l := t.map lowerChar
  if l = ['c', 't', 'r', 'l'] then some (fun m => { m with ctrl := true })
  else if l = ['a', 'l', 't'] then some (fun m => { m with alt := true })
  else if l = ['s', 'h', 'i', 'f', 't'] then some (fun m => { m with shift := true })
  else if l = ['s', 'u', 'p', 'e', 'r'] then some (fun m => { m with sup := true })
  else none

/-- Numeric value of a list of decimal digit characters. -/
def digitsVal (ds : List Char) : Nat :=
  ds.foldl (fun acc c => acc * 10 + (c.toNat - 48)) 0

/-- Modelled from the spec: case-insensitive recognition of the function-key
tokens `F1` … `F20` (no leading zeros, value between 1 and 20). -/
def keyOfToken (t : List Char) : Option (Fin 20) :=
  match t.map lowerChar with
  | 'f' :: ds =>
    if ds ≠ [] ∧ ds.all Char.isDigit ∧ ds.head? ≠ some '0' then
      let n := digitsVal ds
      if h : 1 ≤ n ∧ n ≤ 20 then some ⟨n - 1, by omega⟩ else none
    else none
  | _ => none

/-- Modelled from the spec: interpret a token list as modifier prefixes (in
any order) followed by exactly one base-key token; any unrecognized token
fails with the invalid-chord error. -/
def parseAux (m : Mods) : List (List Char) → Except ParseError ChordSpec
  | [] => .error .invalidChord
  | [t] =>
    match keyOfToken t with
    | some k => .ok ⟨m, k⟩
    | none => .error .invalidChord
  | t :: rest =>
    match modOfToken t with
    | some f => parseAux (f m) rest
    | none => .error .invalidChord

/-- Modelled from the spec: `parse(chord_string) -> ChordSpec`, case
insensitive, failing with the invalid-chord error on unrecognized tokens. -/
def parse (s : String) : Except ParseError ChordSpec :=
  parseAux ⟨false, false, false, false⟩ (splitPlus s.data)

/-- Decimal digits of a function-key number (1–20 needs at most two). -/
def natChars (n : Nat) : List Char :=
  if n < 10 then [Char.ofNat (48 + n)]
  else [Char.ofNat (48 + n / 10), Char.ofNat (48 + n % 10)]

/-- Modelled from the spec: the characters of the canonical form of a chord,
modifiers in the fixed order `Ctrl+Alt+Shift+Super+<Key>`. -/
def formatChars (c : ChordSpec) : List Char :=
  (if c.mods.ctrl then ['C', 't', 'r', 'l', '+'] else [])
    ++ (if c.mods.alt then ['A', 'l', 't', '+'] else [])
    ++ (if c.mods.shift then ['S', 'h', 'i', 'f', 't', '+'] else [])
    ++ (if c.mods.sup then ['S', 'u', 'p', 'e', 'r', '+'] else [])
    ++ 'F' :: natChars (c.base.val + 1)

/-- Modelled from the spec: `format(ChordSpec) -> string`, the canonical
display form of a chord. -/
def format (c : ChordSpec) : String :=
  String.mk (formatChars c)

instance {ε α : Type} [DecidableEq ε] [DecidableEq α] : DecidableEq (Except ε α) := fun x y =>
  match x, y with
  | .ok a, .ok b => decidable_of_iff (a = b) (by simp)
  | .error a, .error b => decidable_of_iff (a = b) (by simp)
  | .ok _, .error _ => isFalse (by simp)
  | .error _, .ok _ => isFalse (by simp)

set_option maxRecDepth 10000 in
/-- Parsing the canonical form of any chord specification recovers it. -/
theorem parse_format (c : ChordSpec) : parse (format c) = .ok c := by
  revert c
  decide

/-! ## ChordRecognizer: key events, held-key state, edge detection -/

/-- Raw key codes carried by device events. -/
abbrev KeyCode := Nat

/-- Modelled from the spec: a normalized key event `{key_code, pressed}`
produced by a DeviceReader. -/
structure KeyEvent where
  code : KeyCode
  pressed : Bool
deriving DecidableEq

/-- Modelled from the spec: a binding `{action_name, chord}`, where a `none`
chord means the action is unbound and never fires. -/
structure Binding where
  action : String
  chord : Option ChordSpec
deriving DecidableEq

/-- Modelled from the spec: the raw key code of each modifier key
(standard evdev codes for Ctrl, Alt, Shift, Super). -/
def ctrlCode : KeyCode := 29
def altCode : KeyCode := 56
def shiftCode : KeyCode := 42
def superCode : KeyCode := 125

/-- Modelled from the spec: whether a raw key code is one of the four
modifier keys. -/
def isModifierCode (c : KeyCode) : Bool :=
  c == ctrlCode || c == altCode || c == shiftCode || c == superCode

/-- Modelled from the spec: the raw key code corresponding to each function
key F1–F20 (standard evdev codes: F1–F10 are 59–68, F11/F12 are 87/88,
F13–F20 are 183–190). -/
def fkeyCode (k : Fin 20) : KeyCode :=
  if k.val < 10 then 59 + k.val
  else if k.val < 12 then 87 + (k.val - 10)
  else 183 + (k.val - 12)

/-- Modelled from the spec: the HeldKeySet, the per-reader set of currently
pressed key codes (membership is the only observable). -/
abbrev HeldKeySet := List KeyCode

/-- Modelled from the spec: add a pressed key code to the held set. -/
def addKey (held : HeldKeySet) (c : KeyCode) : HeldKeySet :=
  if c ∈ held then held else c :: held

/-- Modelled from the spec: remove a released key code from the held set. -/
def removeKey (held : HeldKeySet) (c : KeyCode) : HeldKeySet :=
  held.filter (fun x => x != c)

/-- Modelled from the spec: the modifier subset currently in the held set
(Ctrl/Alt/Shift/Super only). -/
def heldMods (held : HeldKeySet) : Mods :=
  ⟨decide (ctrlCode ∈ held), decide (altCode ∈ held),
    decide (shiftCode ∈ held), decide (superCode ∈ held)⟩

/-- Modelled from the spec: whether one binding matches a base-key edge —
its chord's base key equals the event's code and its modifier set equals
the currently held modifier subset exactly. -/
def bindingFires (mods : Mods) (code : KeyCode) (b : Binding) : Bool :=
  match b.chord with
  | some c => decide (fkeyCode c.base = code ∧ c.mods = mods)
  | none => false

/-- Modelled from the spec: one ChordRecognizer step. Updates the held set
from the event, and on a genuine 0→1 press of a non-modifier key (the code
was not in the held set before the update) fires every binding whose chord
matches exactly, in table order. -/
def recognize (held : HeldKeySet) (table : List Binding) (ev : KeyEvent) :
    HeldKeySet × List String :=
  let held' := if ev.pressed then addKey held ev.code else removeKey held ev.code
  let fired :=
    if ev.pressed = true ∧ isModifierCode ev.code = false ∧ ev.code ∉ held then
      ((table.filter (bindingFires (heldMods held') ev.code)).map Binding.action)
    else []
  (held', fired)

/-- Modelled from the spec: run the recognizer over a sequence of events
starting from an empty held set, collecting all fired actions in order. -/
def runEvents (table : List Binding) (evs : List KeyEvent) : HeldKeySet × List String :=
  evs.foldl
    (fun acc ev =>
      let r := recognize acc.1 table ev
      (r.1, acc.2 ++ r.2))
    ([], [])

theorem mem_addKey {held : HeldKeySet} {c a : KeyCode} :
    a ∈ addKey held c ↔ a = c ∨ a ∈ held := by
  unfold addKey
  split <;> rename_i h
  · constructor
    · exact fun ha => Or.inr ha
    · rintro (rfl | ha)
      · exact h
      · exact ha
  · simp [List.mem_cons]

theorem heldMods_addKey_of_not_modifier {held : HeldKeySet} {c : KeyCode}
    (h : isModifierCode c = false) : heldMods (addKey held c) = heldMods held := by
  have hc : c ≠ ctrlCode ∧ c ≠ altCode ∧ c ≠ shiftCode ∧ c ≠ superCode := by
    simp only [isModifierCode, Bool.or_eq_false_iff, beq_eq_false_iff_ne, ne_eq] at h
    exact ⟨h.1.1.1, h.1.1.2, h.1.2, h.2⟩
  unfold heldMods
  congr 1
  · rw [decide_eq_decide, mem_addKey]
    exact or_iff_right (fun he => hc.1 he.symm)
  · rw [decide_eq_decide, mem_addKey]
    exact or_iff_right (fun he => hc.2.1 he.symm)
  · rw [decide_eq_decide, mem_addKey]
    exact or_iff_right (fun he => hc.2.2.1 he.symm)
  · rw [decide_eq_decide, mem_addKey]
    exact or_iff_right (fun he => hc.2.2.2 he.symm)

/-- A list whose image under `f` has no duplicates maps equal images to
equal elements. -/
theorem eq_of_nodup_map {α β : Type} {f : α → β} {l : List α}
    (hn : (l.map f).Nodup) {a b : α} (ha : a ∈ l) (hb : b ∈ l)
    (hf : f a = f b) : a = b := by
  induction l with
  | nil => cases ha
  | cons x xs ih =>
    rw [List.map_cons, List.nodup_cons] at hn
    rcases List.mem_cons.mp ha with rfl | ha' <;>
      rcases List.mem_cons.mp hb with rfl | hb'
    · rfl
    · exact absurd (hf ▸ List.mem_map_of_mem f hb') hn.1
    · exact absurd (hf ▸ List.mem_map_of_mem f ha') hn.1
    · exact ih hn.2 ha' hb'

/-- Characterization of the fired list of one recognizer step: an action
bound in a duplicate-free table fires exactly on a genuine 0→1 press of its
chord's base key with the held modifier set equal to the chord's modifier
set. -/
theorem mem_recognize_iff {held : HeldKeySet} {table : List Binding}
    {ev : KeyEvent} {b : Binding} {c : ChordSpec}
    (hn : (table.map Binding.action).Nodup) (hb : b ∈ table)
    (hc : b.chord = some c) :
    b.action ∈ (recognize held table ev).2 ↔
      ev.pressed = true ∧ ev.code = fkeyCode c.base ∧
        isModifierCode ev.code = false ∧ ev.code ∉ held ∧
        heldMods held = c.mods := by
  unfold recognize
  simp only []
  constructor
  · intro hmem
    by_cases hcond : ev.pressed = true ∧ isModifierCode ev.code = false ∧ ev.code ∉ held
    · rw [if_pos hcond] at hmem
      rcases List.mem_map.mp hmem with ⟨b', hb', hact⟩
      rcases List.mem_filter.mp hb' with ⟨hb'mem, hfire⟩
      have hbb : b' = b := eq_of_nodup_map hn hb'mem hb hact
      subst hbb
      rw [bindingFires, hc] at hfire
      have hfire' := of_decide_eq_true hfire
      have hheld' : heldMods (addKey held ev.code) = c.mods := by
        have h2 := hfire'.2
        rw [if_pos hcond.1] at h2
        exact h2.symm
      rw [heldMods_addKey_of_not_modifier hcond.2.1] at hheld'
      exact ⟨hcond.1, hfire'.1.symm, hcond.2.1, hcond.2.2, hheld'⟩
    · rw [if_neg hcond] at hmem
      cases hmem
  · rintro ⟨hp, hcode, hmod, hnot, hm⟩
    rw [if_pos ⟨hp, hmod, hnot⟩]
    refine List.mem_map.mpr ⟨b, List.mem_filter.mpr ⟨hb, ?_⟩, rfl⟩
    rw [bindingFires, hc]
    apply decide_eq_true
    refine ⟨hcode.symm, ?_⟩
    rw [hp, if_pos rfl] at *
    rw [heldMods_addKey_of_not_modifier hmod, hm]

/-! ## BindingTable: resolve, bind, validate -/

/-- Modelled from the spec: `resolve(action_name)` — the chord (possibly
`none` = unbound) of the named action, or `none` when the action has no
entry at all. -/
def resolveAction (table : List Binding) (a : String) : Option (Option ChordSpec) :=
  (table.find? (fun b => b.action == a)).map Binding.chord

/-- Modelled from the spec: replace the single entry of one action in a new
table snapshot, leaving every other entry untouched. -/
def setBinding (table : List Binding) (a : String) (oc : Option ChordSpec) :
    List Binding :=
  table.map (fun b => if b.action = a then ⟨a, oc⟩ else b)

/-- Modelled from the spec: one ConflictWarning — two distinct action names
sharing an identical chord, recorded as the ordered pair of their names. -/
structure ConflictWarning where
  first : String
  second : String
deriving DecidableEq

/-- Modelled from the spec: `validate() -> [ConflictWarning]` — one warning
per pair of distinct action names whose bound chords are identical;
advisory only, it does not alter the table. -/
def validate : List Binding → List ConflictWarning
  | [] => []
  | b :: rest =>
    (rest.filterMap (fun b' =>
      if b.chord.isSome ∧ b.chord = b'.chord ∧ b.action ≠ b'.action then
        some ⟨b.action, b'.action⟩
      else none)) ++ validate rest

/-! ## ShortcutService: lifecycle, rebind, degraded start -/

/-- Modelled from the spec: the ShortcutService state — the lifecycle flag
plus the single active BindingTable. -/
structure Service where
  running : Bool
  table : List Binding
deriving DecidableEq

/-- Modelled from the spec: `rebind(action_name, new_chord_string_or_empty)`
— parse (or, for the empty string, clear) the chord and swap the action's
entry in a new table snapshot; a parse failure is returned as an error and
produces no new state. -/
def rebind (svc : Service) (a : String) (s : String) :
    Except ParseError Service :=
  if s = "" then .ok { svc with table := setBinding svc.table a none }
  else
    match parse s with
    | .ok c => .ok { svc with table := setBinding svc.table a (some c) }
    | .error e => .error e

/-- Modelled from the spec: the rebind entry point as the caller sees it —
on a parse error the previous state is kept and the error is reported
synchronously alongside it. -/
def rebindChecked (svc : Service) (a : String) (s : String) :
    Service × Option ParseError :=
  match rebind svc a s with
  | .ok svc' => (svc', none)
  | .error e => (svc, some e)

/-- Modelled from the spec: the result of opening one enumerated input
device — success, or the two distinguished `DeviceOpenError` kinds. -/
inductive OpenResult where
  | opened
  | notFound
  | permissionDenied
deriving DecidableEq

/-- Modelled from the spec: the outcome of `start()` — the new service
state, the success flag reported to the caller, the number of active
readers spawned, and the logged warnings. -/
structure StartOutcome where
  svc : Service
  success : Bool
  readers : Nat
  warnings : List String
deriving DecidableEq

/-- Modelled from the spec: `start()` — open each enumerated device,
skipping every failure; spawn one reader per opened device; transition to
Running; always report success, logging a warning when zero devices could
be opened. A `start()` while already Running is a no-op. -/
def start (svc : Service) (devs : List OpenResult) : StartOutcome :=
  if svc.running then ⟨svc, true, 0, []⟩
  else
    let opened := (devs.filter (fun d => d == OpenResult.opened)).length
    ⟨{ svc with running := true }, true,
      opened,
      if opened = 0 then ["no keyboard devices available; hotkeys disabled"] else []⟩

/-! ## DeviceReader loop: bounded-interval cancellation polling -/

/-- Modelled from the spec: the bounded polling interval of the reader
loop, in milliseconds (the loop waits on the device for at most this long
per iteration before re-checking its cancellation token). -/
def pollIntervalMs : Nat := 500

/-- Modelled from the spec: the reader loop viewed at its cancellation
checks. At tick `t` the loop polls the cancellation token; if set it exits
returning the exit tick, otherwise it waits at most one poll interval (no
device event is needed) and checks again. `fuel` bounds the ticks examined;
`none` means the loop was still running after `fuel` checks. -/
def readLoop (cancel : Nat → Bool) : Nat → Nat → Option Nat
  | 0, _ => none
  | fuel + 1, t => if cancel t then some t else readLoop cancel fuel (t + 1)

/-! ## ConfigManager (embedded from `src/config_manager.py`) -/

/-- The attribute names of a `ConfigManager` instance: the instance
attributes assigned in `__init__` and the methods defined on the class
(`src/config_manager.py`, class body lines 13–288). Neither
`get_all_shortcuts` nor `set_shortcut` is among them. -/
def configManagerAttrs : List String :=
  ["project_root", "local_models_dir", "openai_whisper_dir",
   "local_whisper_binary", "default_config", "config_dir", "config_file",
   "config", "_ensure_config_dir", "_load_config", "save_config",
   "get_setting", "set_setting", "get_all_settings", "reset_to_defaults",
   "update_shortcuts", "get_whisper_model_path", "get_model_directories",
   "add_model_directory", "remove_model_directory", "set_custom_model_path",
   "get_custom_model_path", "get_whisper_binary_path", "get_temp_directory",
   "get_word_overrides", "add_word_override", "remove_word_override",
   "clear_word_overrides"]

/-- The Python error kind relevant here: attribute lookup failure. -/
inductive PyError where
  | attributeError
deriving DecidableEq

/-- Python attribute access on a `ConfigManager` instance: succeeds when the
name is a defined attribute or method, raises `AttributeError` otherwise. -/
def configAttr (name : String) : Except PyError Unit :=
  if name ∈ configManagerAttrs then .ok () else .error .attributeError

/-- The observable steps of `WhisperTuxApp._setup_global_shortcuts`
(`main.py` lines 2236–2261). -/
inductive SetupStep where
  | getKeyboardDevice
  | getAllShortcuts
  | constructGlobalShortcuts
  | startGlobalShortcuts
  | catchException
deriving DecidableEq

/-- `WhisperTuxApp._setup_global_shortcuts` (`main.py` lines 2236–2261),
embedded as straight-line code with exception flow made explicit: inside
the `try` block it reads the keyboard-device setting, calls
`self.config.get_all_shortcuts()`, constructs `GlobalShortcuts`, and starts
it; the first attribute lookup that raises aborts the block and the
`except` handler catches, leaving `self.global_shortcuts` at its initial
`None`. Returns the final `global_shortcuts` value and the executed
steps. -/
def setupGlobalShortcuts : Option Unit × List SetupStep :=
  match configAttr "get_setting" with
  | .error _ => (none, [.catchException])
  | .ok _ =>
    match configAttr "get_all_shortcuts" with
    | .error _ => (none, [.getKeyboardDevice, .catchException])
    | .ok _ =>
      (some (), [.getKeyboardDevice, .getAllShortcuts,
        .constructGlobalShortcuts, .startGlobalShortcuts])

/-- An in-memory configuration: a partial map from setting names to values
(the shortcut settings at stake are strings). -/
abbrev Config := String → Option String

/-- `ConfigManager.update_shortcuts` (`src/config_manager.py` lines
117–122): assigns `config['primary_shortcut'] = primary` when `primary` is
not `None`; the `secondary` parameter is never read. (The trailing
`save_config()` call is file I/O outside this embedding and touches no
further keys.) -/
def update_shortcuts (primary secondary : Option String) (cfg : Config) : Config :=
  match primary with
  | some p => fun k => if k = "primary_shortcut" then some p else cfg k
  | none => cfg

/-! ## SettingsDialog shortcut validation (embedded from `main.py`) -/

/-- Whitespace characters stripped by Python `str.strip()` (ASCII). -/
def isSpaceChar (c : Char) : Bool :=
  c == ' ' || c == '\t' || c == '\n' || c == '\r' ||
    c == Char.ofNat 11 || c == Char.ofNat 12

/-- Strip leading and trailing whitespace from a character list. -/
def trimChars (l : List Char) : List Char :=
  ((l.dropWhile isSpaceChar).reverse.dropWhile isSpaceChar).reverse

/-- The key normalization `key.lower().strip()` of
`SettingsDialog._validate_shortcuts` (`main.py` line 1487), with ASCII
lower-casing. -/
def normKey (s : String) : String :=
  String.mk (trimChars (s.data.map lowerChar))

/-- The collection loop of `_validate_shortcuts` (`main.py` lines
1483–1487): keep each combo whose current text is non-empty and not
`"(None)"`, paired with its normalized key. -/
def collectShortcuts (combos : List (String × String)) : List (String × String) :=
  combos.filterMap (fun p =>
    if p.2 ≠ "" ∧ p.2 ≠ "(None)" then some (p.1, normKey p.2) else none)

/-- One conflict record of `_validate_shortcuts` (`main.py` line 1494):
the conflicting action, the action first seen with the key, and the shared
normalized key (the Python code renders these three into a message
string). -/
structure SettingsConflict where
  name : String
  prior : String
  key : String
deriving DecidableEq

/-- The conflict-finding loop of `_validate_shortcuts` (`main.py` lines
1490–1496): walk the collected entries keeping a `seen_keys` map from
normalized key to the first action using it; every later entry with an
already-seen key appends one conflict. -/
def scanConflicts (seen : List (String × String)) :
    List (String × String) → List SettingsConflict
  | [] => []
  | (n, k) :: rest =>
    match seen.lookup k with
    | some first => ⟨n, first, k⟩ :: scanConflicts seen rest
    | none => scanConflicts (seen ++ [(k, n)]) rest

/-- `SettingsDialog._validate_shortcuts` (`main.py` lines 1480–1505):
returns `(return value, conflict label visible, conflicts)` — `True` with
the warning label hidden when no conflicts were found, `False` with the
label visible otherwise. -/
def validateShortcuts (combos : List (String × String)) :
    Bool × Bool × List SettingsConflict :=
  let conflicts := scanConflicts [] (collectShortcuts combos)
  (conflicts.isEmpty, !conflicts.isEmpty, conflicts)

/-- The four shortcut combo boxes of the settings dialog, in the insertion
order of `self.shortcut_combos` (`main.py` lines 1420, 1441, 1457, 1473),
with their current texts. -/
def combos4 (tToggle tStart tStop tPause : String) : List (String × String) :=
  [("toggle", tToggle), ("start", tStart), ("stop", tStop), ("pause", tPause)]

/-! ## Lemmas about the conflict scanner -/

theorem lookup_append_single_eq_none {seen : List (String × String)}
    {k k' : String} {n : String} :
    (seen ++ [(k, n)]).lookup k' = none ↔ seen.lookup k' = none ∧ k' ≠ k := by
  induction seen with
  | nil =>
    simp only [List.nil_append, List.lookup]
    by_cases h : k' = k
    · simp [h]
    · simp [beq_false_of_ne h, h]
  | cons p rest ih =>
    obtain ⟨a, b⟩ := p
    simp only [List.cons_append, List.lookup]
    by_cases h : k' = a
    · simp [h]
    · simp only [beq_false_of_ne h]
      exact ih

theorem lookup_append_of_some {seen : List (String × String)}
    {k : String} {v : String} (h : seen.lookup k = some v)
    (l : List (String × String)) : (seen ++ l).lookup k = some v := by
  induction seen with
  | nil => simp [List.lookup] at h
  | cons p rest ih =>
    obtain ⟨a, b⟩ := p
    simp only [List.cons_append, List.lookup] at *
    by_cases hk : k = a
    · simpa [hk] using h
    · simp only [beq_false_of_ne hk] at h ⊢
      exact ih h

/-- The scanner reports no conflict exactly when the entries' keys are
pairwise distinct and none of them was already seen. -/
theorem scanConflicts_eq_nil_iff (entries : List (String × String))
    (seen : List (String × String)) :
    scanConflicts seen entries = [] ↔
      (entries.map Prod.snd).Nodup ∧
        ∀ k ∈ entries.map Prod.snd, seen.lookup k = none := by
  induction entries generalizing seen with
  | nil => simp [scanConflicts]
  | cons e rest ih =>
    obtain ⟨n, k⟩ := e
    simp only [scanConflicts, List.map_cons, List.nodup_cons, List.mem_cons]
    cases hk : seen.lookup k with
    | some first =>
      simp only [List.cons_ne_nil, false_iff]
      rintro ⟨-, hall⟩
      exact (by simp [hk] : seen.lookup k ≠ none) (hall k (Or.inl rfl))
    | none =>
      rw [ih]
      constructor
      · rintro ⟨hnd, hall⟩
        have hmem : k ∉ rest.map Prod.snd := fun hkm => by
          rcases (lookup_append_single_eq_none.mp (hall k hkm)) with ⟨-, hne⟩
          exact hne rfl
        refine ⟨⟨hmem, hnd⟩, ?_⟩
        rintro k' (rfl | hk')
        · exact hk
        · exact (lookup_append_single_eq_none.mp (hall k' hk')).1
      · rintro ⟨⟨hmem, hnd⟩, hall⟩
        refine ⟨hnd, fun k' hk' => ?_⟩
        refine lookup_append_single_eq_none.mpr ⟨hall k' (Or.inr hk'), ?_⟩
        rintro rfl
        exact hmem hk'

/-- Per-key conflict count of the scanner when the key was already seen:
every entry with that key adds one conflict. -/
theorem scanConflicts_count_of_seen (entries : List (String × String))
    (seen : List (String × String)) (k : String) {v : String}
    (h : seen.lookup k = some v) :
    ((scanConflicts seen entries).filter (fun c => c.key == k)).length =
      (entries.filter (fun e => e.2 == k)).length := by
  induction entries generalizing seen v with
  | nil => simp [scanConflicts]
  | cons e rest ih =>
    obtain ⟨n, k'⟩ := e
    by_cases hkk : k' = k
    · subst hkk
      rw [scanConflicts, h]
      simp only [List.filter_cons, beq_self_eq_true, if_true, List.length_cons]
      rw [ih seen h]
    · rw [scanConflicts]
      cases hk' : seen.lookup k' with
      | some f =>
        simp only [List.filter_cons, beq_false_of_ne hkk, Bool.false_eq_true,
          if_false]
        exact ih seen h
      | none =>
        simp only [List.filter_cons, beq_false_of_ne hkk, Bool.false_eq_true,
          if_false]
        exact ih (seen ++ [(k', n)]) (lookup_append_of_some h _)

/-- Per-key conflict count of the scanner when the key is new: `n` entries
with that key produce `n - 1` conflicts. -/
theorem scanConflicts_count_of_new (entries : List (String × String))
    (seen : List (String × String)) (k : String)
    (h : seen.lookup k = none) :
    ((scanConflicts seen entries).filter (fun c => c.key == k)).length =
      (entries.filter (fun e => e.2 == k)).length - 1 := by
  induction entries generalizing seen with
  | nil => simp [scanConflicts]
  | cons e rest ih =>
    obtain ⟨n, k'⟩ := e
    by_cases hkk : k' = k
    · subst hkk
      rw [scanConflicts, h]
      simp only [List.filter_cons, beq_self_eq_true, if_true, List.length_cons,
        Nat.add_sub_cancel]
      have hsome : (seen ++ [(k', n)]).lookup k' = some n := by
        clear ih
        induction seen with
        | nil => simp [List.lookup]
        | cons p s ihs =>
          obtain ⟨a, b⟩ := p
          simp only [List.cons_append, List.lookup] at *
          by_cases hka : k' = a
          · simp [hka] at h
          · simp only [beq_false_of_ne hka] at h ⊢
            exact ihs h
      exact scanConflicts_count_of_seen rest _ k' hsome
    · rw [scanConflicts]
      cases hk' : seen.lookup k' with
      | some f =>
        simp only [List.filter_cons, beq_false_of_ne hkk, Bool.false_eq_true,
          if_false]
        exact ih seen h
      | none =>
        simp only [List.filter_cons, beq_false_of_ne hkk, Bool.false_eq_true,
          if_false]
        refine ih (seen ++ [(k', n)]) ?_
        exact lookup_append_single_eq_none.mpr ⟨h, Ne.symm hkk⟩

/-! ## Claim theorems -/

/-- C2: for every valid chord string `s` accepted by the key-name codec,
`format(parse(s))` parses back to a `ChordSpec` equal to `parse(s)`;
equivalently `parse(format(parse(s)))` is chord-equal to `parse(s)`. -/
theorem parse_format_roundtrip (s : String) (c : ChordSpec)
    (h : parse s = .ok c) :
    parse (format c) = .ok c ∧ parse (format c) = parse s :=
  ⟨parse_format c, by rw [parse_format c, h]⟩

theorem parse_format_roundtrip_witness :
    parse (format ⟨⟨true, false, false, false⟩, 0⟩) =
        .ok ⟨⟨true, false, false, false⟩, 0⟩ ∧
      parse (format ⟨⟨true, false, false, false⟩, 0⟩) = parse "Ctrl+F1" :=
  parse_format_roundtrip "Ctrl+F1" ⟨⟨true, false, false, false⟩, 0⟩ (by decide)

/-- C3: `ConfigManager` defines neither `get_all_shortcuts` nor
`set_shortcut`, so the calls `main.py` makes on them raise
`AttributeError`; in `WhisperTuxApp._setup_global_shortcuts` the call to
`self.config.get_all_shortcuts()` raises before `GlobalShortcuts` is
constructed, the surrounding `except` handler catches it, and
`self.global_shortcuts` remains `None` — the global hotkey service is
never created or started. -/
theorem config_lacks_shortcut_methods_so_service_never_starts :
    configAttr "get_all_shortcuts" = .error .attributeError ∧
      configAttr "set_shortcut" = .error .attributeError ∧
      setupGlobalShortcuts.1 = none ∧
      SetupStep.constructGlobalShortcuts ∉ setupGlobalShortcuts.2 ∧
      SetupStep.startGlobalShortcuts ∉ setupGlobalShortcuts.2 ∧
      SetupStep.catchException ∈ setupGlobalShortcuts.2 := by
  decide

/-- C6: when zero input devices can be opened (for instance every open
fails with permission denied), `start()` from the Stopped state still
reports success, spawns zero readers, logs a warning, and leaves the
service running but idle; its total return type surfaces no exception to
the caller. -/
theorem start_zero_devices_degraded (svc : Service) (devs : List OpenResult)
    (h : ∀ d ∈ devs, d ≠ OpenResult.opened) (hr : svc.running = false) :
    (start svc devs).success = true ∧ (start svc devs).readers = 0 ∧
      (start svc devs).warnings ≠ [] ∧ (start svc devs).svc.running = true := by
  have hfilter : devs.filter (fun d => d == OpenResult.opened) = [] :=
    List.filter_eq_nil.mpr fun d hd => by simpa using h d hd
  simp [start, hr, hfilter]

theorem start_zero_devices_degraded_witness :
    (start ⟨false, []⟩ [OpenResult.permissionDenied, OpenResult.permissionDenied]).success = true ∧
      (start ⟨false, []⟩ [OpenResult.permissionDenied, OpenResult.permissionDenied]).readers = 0 ∧
      (start ⟨false, []⟩ [OpenResult.permissionDenied, OpenResult.permissionDenied]).warnings ≠ [] ∧
      (start ⟨false, []⟩ [OpenResult.permissionDenied, OpenResult.permissionDenied]).svc.running = true :=
  start_zero_devices_degraded ⟨false, []⟩ _ (by decide) rfl

/-- C7: once the cancellation token is set (as `stop()` does), the reader
loop exits at its very next cancellation check — it never blocks waiting
for a device event — and the checks are at most one poll interval apart,
with the poll interval bounded by 500 ms; hence `stop()` returns within a
bounded time (at most one interval, well under 1 second) even on a silent
device. -/
theorem stop_returns_within_poll_interval (cancel : Nat → Bool) (T t fuel : Nat)
    (h : ∀ u, T ≤ u → cancel u = true) (ht : T ≤ t) (hf : 0 < fuel) :
    readLoop cancel fuel t = some t ∧ pollIntervalMs ≤ 500 := by
  cases fuel with
  | zero => exact absurd hf (by simp)
  | succ n =>
    refine ⟨?_, by decide⟩
    simp [readLoop, h t ht]

theorem stop_returns_within_poll_interval_witness :
    readLoop (fun _ => true) 1 0 = some 0 ∧ pollIntervalMs ≤ 500 :=
  stop_returns_within_poll_interval (fun _ => true) 0 0 1
    (fun _ _ => rfl) (Nat.le_refl 0) (by decide)

/-- C10: `ConfigManager.update_shortcuts(primary, secondary)` modifies only
the `primary_shortcut` entry (and only when `primary` is not `None`); the
`secondary` argument is ignored entirely and every other configuration key
is left unchanged. -/
theorem update_shortcuts_frame :
    (∀ (p s : Option String) (cfg : Config) (k : String),
        k ≠ "primary_shortcut" → update_shortcuts p s cfg k = cfg k)
    ∧ (∀ (p s₁ s₂ : Option String) (cfg : Config),
        update_shortcuts p s₁ cfg = update_shortcuts p s₂ cfg)
    ∧ (∀ (s : Option String) (cfg : Config), update_shortcuts none s cfg = cfg)
    ∧ (∀ (p : String) (s : Option String) (cfg : Config),
        update_shortcuts (some p) s cfg "primary_shortcut" = some p) := by
  refine ⟨?_, fun p s₁ s₂ cfg => rfl, fun s cfg => rfl,
    fun p s cfg => by simp [update_shortcuts]⟩
  intro p s cfg k hk
  cases p with
  | none => rfl
  | some p => exact if_neg hk

theorem update_shortcuts_frame_witness :
    update_shortcuts (some "F13") none (fun _ => none) "model" = (fun _ => none : Config) "model" :=
  update_shortcuts_frame.1 (some "F13") none (fun _ => none) "model" (by decide)

/-- C1: in a table with unique action names, an action fires on a key event
exactly when the event is a genuine 0→1 press of its chord's base key (the
code was not in the HeldKeySet before the update) with the held modifier
set equal to the chord's modifier set exactly; in particular a `Ctrl+F1`
binding fires when Ctrl is held and F1 goes down, and fires nothing extra
on F1 auto-repeat, on F1 pressed before Ctrl, or after Ctrl was released
before F1. -/
theorem chord_fires_exactly_on_exact_edge :
    (∀ (held : HeldKeySet) (table : List Binding) (ev : KeyEvent)
        (b : Binding) (c : ChordSpec),
        (table.map Binding.action).Nodup → b ∈ table → b.chord = some c →
        (b.action ∈ (recognize held table ev).2 ↔
          ev.pressed = true ∧ ev.code = fkeyCode c.base ∧
            isModifierCode ev.code = false ∧ ev.code ∉ held ∧
            heldMods held = c.mods))
    ∧ (runEvents [⟨"toggle", some ⟨⟨true, false, false, false⟩, 0⟩⟩]
        [⟨ctrlCode, true⟩, ⟨59, true⟩]).2 = ["toggle"]
    ∧ (runEvents [⟨"toggle", some ⟨⟨true, false, false, false⟩, 0⟩⟩]
        [⟨ctrlCode, true⟩, ⟨59, true⟩, ⟨59, true⟩]).2 = ["toggle"]
    ∧ (runEvents [⟨"toggle", some ⟨⟨true, false, false, false⟩, 0⟩⟩]
        [⟨59, true⟩, ⟨ctrlCode, true⟩]).2 = []
    ∧ (runEvents [⟨"toggle", some ⟨⟨true, false, false, false⟩, 0⟩⟩]
        [⟨ctrlCode, true⟩, ⟨ctrlCode, false⟩, ⟨59, true⟩]).2 = [] :=
  ⟨fun _ _ _ _ _ hn hb hc => mem_recognize_iff hn hb hc,
    by decide, by decide, by decide, by decide⟩

theorem chord_fires_exactly_on_exact_edge_witness :
    "toggle" ∈ (recognize [ctrlCode]
        [⟨"toggle", some ⟨⟨true, false, false, false⟩, 0⟩⟩] ⟨59, true⟩).2 ↔
      (true : Bool) = true ∧ (59 : KeyCode) = fkeyCode (0 : Fin 20) ∧
        isModifierCode 59 = false ∧ (59 : KeyCode) ∉ [ctrlCode] ∧
        heldMods [ctrlCode] = ⟨true, false, false, false⟩ :=
  chord_fires_exactly_on_exact_edge.1 [ctrlCode]
    [⟨"toggle", some ⟨⟨true, false, false, false⟩, 0⟩⟩] ⟨59, true⟩
    ⟨"toggle", some ⟨⟨true, false, false, false⟩, 0⟩⟩
    ⟨⟨true, false, false, false⟩, 0⟩ (by decide) (by decide) rfl

/-- C4: two distinct action names bound to the identical chord both fire,
in table order, on a single matching press edge (fan-out), and `validate`
reports exactly one conflict for the pair; the conflict is advisory only —
the very same table still fires both actions, so it does not block
activation of the bindings. -/
theorem duplicate_chord_fanout_single_conflict
    (a₁ a₂ : String) (c : ChordSpec) (held : HeldKeySet) (ev : KeyEvent)
    (hne : a₁ ≠ a₂) (hp : ev.pressed = true) (hcode : ev.code = fkeyCode c.base)
    (hmod : isModifierCode ev.code = false) (hheld : ev.code ∉ held)
    (hm : heldMods held = c.mods) :
    (recognize held [⟨a₁, some c⟩, ⟨a₂, some c⟩] ev).2 = [a₁, a₂] ∧
      validate [⟨a₁, some c⟩, ⟨a₂, some c⟩] = [⟨a₁, a₂⟩] := by
  constructor
  · have hif : (if ev.pressed = true then addKey held ev.code
        else removeKey held ev.code) = addKey held ev.code := if_pos hp
    have hfb : ∀ a : String,
        bindingFires (heldMods (addKey held ev.code)) ev.code ⟨a, some c⟩ = true := by
      intro a
      rw [bindingFires]
      apply decide_eq_true
      exact ⟨hcode.symm, ((heldMods_addKey_of_not_modifier hmod).trans hm).symm⟩
    unfold recognize
    simp only [hif]
    rw [if_pos ⟨hp, hmod, hheld⟩]
    simp only [List.filter_cons, hfb, if_true, List.filter_nil,
      List.map_cons, List.map_nil]
  · simp only [validate, List.filterMap_cons, List.filterMap_nil]
    rw [if_pos (show (some c).isSome = true ∧ True ∧ a₁ ≠ a₂ from ⟨rfl, trivial, hne⟩)]
    simp

theorem duplicate_chord_fanout_single_conflict_witness :
    (recognize [ctrlCode]
        [⟨"start", some ⟨⟨true, false, false, false⟩, 0⟩⟩,
         ⟨"stop", some ⟨⟨true, false, false, false⟩, 0⟩⟩] ⟨59, true⟩).2
      = ["start", "stop"] ∧
      validate
        [⟨"start", some ⟨⟨true, false, false, false⟩, 0⟩⟩,
         ⟨"stop", some ⟨⟨true, false, false, false⟩, 0⟩⟩] = [⟨"start", "stop"⟩] :=
  duplicate_chord_fanout_single_conflict "start" "stop"
    ⟨⟨true, false, false, false⟩, 0⟩ [ctrlCode] ⟨59, true⟩
    (by decide) rfl (by decide) (by decide) (by decide) (by decide)

theorem setBinding_map_action (t : List Binding) (a : String)
    (oc : Option ChordSpec) :
    (setBinding t a oc).map Binding.action = t.map Binding.action := by
  unfold setBinding
  rw [List.map_map]
  congr 1
  funext b
  by_cases h : b.action = a
  · simp [Function.comp, h]
  · simp [Function.comp, h]

theorem mem_setBinding_of_ne {t : List Binding} {a : String}
    {oc : Option ChordSpec} {b : Binding} (hb : b ∈ t) (h : b.action ≠ a) :
    b ∈ setBinding t a oc := by
  unfold setBinding
  exact List.mem_map.mpr ⟨b, hb, if_neg h⟩

theorem chord_of_mem_setBinding {t : List Binding} {a : String}
    {oc : Option ChordSpec} {b : Binding} (hb : b ∈ setBinding t a oc)
    (h : b.action = a) : b.chord = oc := by
  unfold setBinding at hb
  rcases List.mem_map.mp hb with ⟨b₀, hb₀, heq⟩
  by_cases h₀ : b₀.action = a
  · rw [if_pos h₀] at heq
    rw [← heq]
  · rw [if_neg h₀] at heq
    exact absurd (heq ▸ h) h₀

theorem action_mem_setBinding {t : List Binding} {a : String}
    (oc : Option ChordSpec) (ha : a ∈ t.map Binding.action) :
    (⟨a, oc⟩ : Binding) ∈ setBinding t a oc := by
  rcases List.mem_map.mp ha with ⟨b₀, hb₀, hact⟩
  unfold setBinding
  exact List.mem_map.mpr ⟨b₀, hb₀, if_pos hact⟩

/-- An action whose (unique or repeated) entries are all unbound in the
table never appears in the fired list. -/
theorem not_fired_of_unbound {held : HeldKeySet} {t : List Binding}
    {a : String} {ev : KeyEvent}
    (h : ∀ b ∈ t, b.action = a → b.chord = none) :
    a ∉ (recognize held t ev).2 := by
  intro hmem
  simp only [recognize] at hmem
  by_cases hcond : ev.pressed = true ∧ isModifierCode ev.code = false ∧ ev.code ∉ held
  · rw [if_pos hcond] at hmem
    rcases List.mem_map.mp hmem with ⟨b', hb', hact⟩
    rcases List.mem_filter.mp hb' with ⟨hb'mem, hfire⟩
    rw [bindingFires, h b' hb'mem hact] at hfire
    cases hfire
  · rw [if_neg hcond] at hmem
    cases hmem

/-- C5: rebinding takes effect for the next event without `stop()`/
`start()`: clearing an action's chord (`rebind(a, "")`) yields a state where
no event fires that action; rebinding to a parsed chord yields a state
where the action fires on the next matching edge; and in both cases the
result is a complete new BindingTable snapshot — the action list is
unchanged, every other action's entry is carried over untouched, and the
lifecycle flag is untouched. -/
theorem rebind_effective_without_restart (svc : Service) (a : String) :
    (∀ svc₀, rebind svc a "" = .ok svc₀ →
      svc₀.running = svc.running ∧
      (∀ (held : HeldKeySet) (ev : KeyEvent), a ∉ (recognize held svc₀.table ev).2) ∧
      (∀ b ∈ svc.table, b.action ≠ a → b ∈ svc₀.table) ∧
      svc₀.table.map Binding.action = svc.table.map Binding.action)
    ∧ (∀ (s : String) (c : ChordSpec) svc₁, parse s = .ok c →
        rebind svc a s = .ok svc₁ →
        svc₁.running = svc.running ∧
        (∀ b ∈ svc.table, b.action ≠ a → b ∈ svc₁.table) ∧
        svc₁.table.map Binding.action = svc.table.map Binding.action ∧
        (∀ (held : HeldKeySet) (ev : KeyEvent),
          a ∈ svc.table.map Binding.action →
          ev.pressed = true → ev.code = fkeyCode c.base →
          isModifierCode ev.code = false → ev.code ∉ held →
          heldMods held = c.mods →
          a ∈ (recognize held svc₁.table ev).2)) := by
  constructor
  · intro svc₀ h₀
    rw [rebind, if_pos rfl] at h₀
    cases h₀
    refine ⟨rfl, ?_, ?_, setBinding_map_action _ _ _⟩
    · intro held ev
      exact not_fired_of_unbound fun b hb hact => chord_of_mem_setBinding hb hact
    · intro b hb hne
      exact mem_setBinding_of_ne hb hne
  · intro s c svc₁ hs h₁
    have hse : s ≠ "" := by
      intro he
      have hpe : parse "" = Except.error ParseError.invalidChord := by decide
      rw [he, hpe] at hs
      exact Except.noConfusion hs
    rw [rebind, if_neg hse, hs] at h₁
    cases h₁
    refine ⟨rfl, ?_, setBinding_map_action _ _ _, ?_⟩
    · intro b hb hne
      exact mem_setBinding_of_ne hb hne
    · intro held ev ha hp hcode hmod hheld hm
      have hbmem : (⟨a, some c⟩ : Binding) ∈ setBinding svc.table a (some c) :=
        action_mem_setBinding (some c) ha
      unfold recognize
      simp only []
      rw [if_pos ⟨hp, hmod, hheld⟩]
      refine List.mem_map.mpr ⟨⟨a, some c⟩, List.mem_filter.mpr ⟨hbmem, ?_⟩, rfl⟩
      rw [bindingFires]
      apply decide_eq_true
      refine ⟨hcode.symm, ?_⟩
      rw [if_pos hp]
      exact ((heldMods_addKey_of_not_modifier hmod).trans hm).symm

theorem rebind_effective_without_restart_witness :
    ("pause" ∉ (recognize []
        (setBinding [⟨"toggle", some ⟨⟨false, false, false, false⟩, 12⟩⟩,
          ⟨"pause", some ⟨⟨false, true, false, false⟩, 8⟩⟩] "pause" none)
        ⟨64, true⟩).2)
    ∧ ("toggle" ∈ (recognize [altCode]
        (setBinding [⟨"toggle", some ⟨⟨false, false, false, false⟩, 12⟩⟩,
          ⟨"pause", some ⟨⟨false, true, false, false⟩, 8⟩⟩] "toggle"
          (some ⟨⟨false, true, false, false⟩, 8⟩))
        ⟨67, true⟩).2) := by
  constructor
  · exact (((rebind_effective_without_restart
      ⟨true, [⟨"toggle", some ⟨⟨false, false, false, false⟩, 12⟩⟩,
        ⟨"pause", some ⟨⟨false, true, false, false⟩, 8⟩⟩]⟩ "pause").1
      ⟨true, setBinding [⟨"toggle", some ⟨⟨false, false, false, false⟩, 12⟩⟩,
        ⟨"pause", some ⟨⟨false, true, false, false⟩, 8⟩⟩] "pause" none⟩
      rfl).2.1 [] ⟨64, true⟩)
  · exact (((rebind_effective_without_restart
      ⟨true, [⟨"toggle", some ⟨⟨false, false, false, false⟩, 12⟩⟩,
        ⟨"pause", some ⟨⟨false, true, false, false⟩, 8⟩⟩]⟩ "toggle").2
      "Alt+F9" ⟨⟨false, true, false, false⟩, 8⟩
      ⟨true, setBinding [⟨"toggle", some ⟨⟨false, false, false, false⟩, 12⟩⟩,
        ⟨"pause", some ⟨⟨false, true, false, false⟩, 8⟩⟩] "toggle"
        (some ⟨⟨false, true, false, false⟩, 8⟩)⟩
      (by decide) rfl).2.2.2 [altCode] ⟨67, true⟩
      (by decide) rfl (by decide) (by decide) (by decide) (by decide))

/-- Modelled from the spec: a token is recognized when it is one of the
modifier names or one of the function-key names. -/
def recognizedToken (t : List Char) : Bool :=
  (modOfToken t).isSome || (keyOfToken t).isSome

theorem parseAux_error_of_bad_token (ts : List (List Char)) (m : Mods)
    {t : List Char} (ht : t ∈ ts) (hbad : recognizedToken t = false) :
    parseAux m ts = .error .invalidChord := by
  have hmod : modOfToken t = none := by
    cases h : modOfToken t with
    | none => rfl
    | some f => rw [recognizedToken, h] at hbad; simp at hbad
  have hkey : keyOfToken t = none := by
    cases h : keyOfToken t with
    | none => rfl
    | some k => rw [recognizedToken, h] at hbad; simp at hbad
  induction ts generalizing m with
  | nil => cases ht
  | cons t₀ rest ih =>
    cases rest with
    | nil =>
      have heq : t = t₀ := by simpa using ht
      subst heq
      simp [parseAux, hkey]
    | cons t₁ rest' =>
      rcases List.mem_cons.mp ht with rfl | ht'
      · simp [parseAux, hmod]
      · cases hm₀ : modOfToken t₀ with
        | none => simp [parseAux, hm₀]
        | some f => simpa [parseAux, hm₀] using ih (f m) ht'

/-- C8: a chord string containing an unrecognized token fails to parse with
the invalid-chord error (the spec's `InvalidChordSyntax`), and a rebind
attempted with it is rejected atomically: the service state — including
the previous binding of the action — is returned unchanged, with the error
reported synchronously alongside it. (The empty string is excluded: it is
the documented unbind sentinel, not a chord string.) -/
theorem malformed_chord_rejected_atomically (s : String) (t : List Char)
    (ht : t ∈ splitPlus s.data) (hbad : recognizedToken t = false)
    (hs : s ≠ "") :
    parse s = .error .invalidChord ∧
      ∀ (svc : Service) (a : String),
        rebindChecked svc a s = (svc, some .invalidChord) := by
  have hp : parse s = .error .invalidChord :=
    parseAux_error_of_bad_token _ _ ht hbad
  refine ⟨hp, fun svc a => ?_⟩
  rw [rebindChecked, rebind, if_neg hs, hp]

theorem malformed_chord_rejected_atomically_witness :
    parse "Ctrl+Q" = .error .invalidChord ∧
      ∀ (svc : Service) (a : String),
        rebindChecked svc a "Ctrl+Q" = (svc, some .invalidChord) :=
  malformed_chord_rejected_atomically "Ctrl+Q" ['Q'] (by decide) (by decide)
    (by decide)

/-- C9: for every assignment of texts to the four shortcut combo boxes,
`_validate_shortcuts` (1) only considers entries whose text is neither
empty nor `"(None)"`, comparing the surviving keys after lowercasing and
stripping; (2) returns `True` exactly when the considered normalized keys
are pairwise distinct, and (3) hides the warning label exactly in the same
case; and (4) when `n` considered actions share one normalized key it
reports exactly `n - 1` conflict messages for that key. -/
theorem validate_shortcuts_behavior (tToggle tStart tStop tPause : String) :
    (∀ name k, (name, k) ∈ collectShortcuts (combos4 tToggle tStart tStop tPause) →
      ∃ text, (name, text) ∈ combos4 tToggle tStart tStop tPause ∧
        ¬(text = "" ∨ text = "(None)") ∧ k = normKey text)
    ∧ ((validateShortcuts (combos4 tToggle tStart tStop tPause)).1 = true ↔
        ((collectShortcuts (combos4 tToggle tStart tStop tPause)).map Prod.snd).Nodup)
    ∧ ((validateShortcuts (combos4 tToggle tStart tStop tPause)).2.1 = false ↔
        ((collectShortcuts (combos4 tToggle tStart tStop tPause)).map Prod.snd).Nodup)
    ∧ (∀ k,
        ((validateShortcuts (combos4 tToggle tStart tStop tPause)).2.2.filter
            (fun cf => cf.key == k)).length =
          ((collectShortcuts (combos4 tToggle tStart tStop tPause)).filter
            (fun e => e.2 == k)).length - 1) := by
  refine ⟨?_, ?_, ?_, ?_⟩
  · intro name k hk
    rcases List.mem_filterMap.mp hk with ⟨⟨n₀, t₀⟩, hmem, hval⟩
    by_cases hc : t₀ ≠ "" ∧ t₀ ≠ "(None)"
    · rw [if_pos hc] at hval
      obtain ⟨rfl, rfl⟩ := Prod.mk.injEq .. ▸ Option.some.inj hval
      exact ⟨t₀, hmem, by tauto, rfl⟩
    · rw [if_neg hc] at hval
      cases hval
  · rw [show (validateShortcuts (combos4 tToggle tStart tStop tPause)).1 =
        (scanConflicts [] (collectShortcuts (combos4 tToggle tStart tStop tPause))).isEmpty
      from rfl]
    rw [List.isEmpty_iff]
    rw [scanConflicts_eq_nil_iff]
    simp [List.lookup]
  · rw [show (validateShortcuts (combos4 tToggle tStart tStop tPause)).2.1 =
        !(scanConflicts [] (collectShortcuts (combos4 tToggle tStart tStop tPause))).isEmpty
      from rfl]
    rw [Bool.not_eq_false']
    rw [List.isEmpty_iff]
    rw [scanConflicts_eq_nil_iff]
    simp [List.lookup]
  · intro k
    exact scanConflicts_count_of_new _ [] k rfl

theorem validate_shortcuts_behavior_witness :
    (∃ text, ("toggle", text) ∈ combos4 " F13 " "" "(None)" "F13" ∧
      ¬(text = "" ∨ text = "(None)") ∧ "f13" = normKey text) ∧
      ((validateShortcuts (combos4 " F13 " "" "(None)" "F13")).1 = true ↔
        ((collectShortcuts (combos4 " F13 " "" "(None)" "F13")).map Prod.snd).Nodup) :=
  ⟨(validate_shortcuts_behavior " F13 " "" "(None)" "F13").1 "toggle" "f13" (by decide),
    (validate_shortcuts_behavior " F13 " "" "(None)" "F13").2.1⟩

end WhisperTux
